import Mathlib

/-!
Verification of the tailmon repository: a shallow embedding of the
presence manager (`internal/tshttp`), the exporter-registration parser
(`cmd/tailmon`), the proxy request filter (`cmd/tailmon`) and the
discovery enumerator (`cmd/tailmon-discover`), with theorems settling
the specification's claims about them.
-/

namespace Tailmon

/-- Go strings are modelled as their rune sequences. -/
abbrev GoStr := List Char

/-- Rune sequence of a Lean string literal. -/
def str (s : String) : GoStr := s.data

/-- Embeds `strings.Cut(s, sep)` for the one-rune separators used by this
repository: splits at the first occurrence of `sep`, returning `none` when
`sep` does not occur (Go's `ok = false`). -/
def goCut (sep : Char) : GoStr → Option (GoStr × GoStr)
  | [] => none
  | c :: rest =>
    if c = sep then some ([], rest)
    else
      match goCut sep rest with
      | none => none
      | some (a, b) => some (c :: a, b)

/-- `strings.HasPrefix(s, pre)` on rune sequences. -/
def goHasPre : GoStr → GoStr → Bool
  | _, [] => true
  | [], _ :: _ => false
  | c :: s, p :: ps => (c == p) && goHasPre s ps

/-- `strings.TrimPrefix(s, pre)` on rune sequences. -/
def goTrimPre (s pre : GoStr) : GoStr :=
  if goHasPre s pre then s.drop pre.length else s

/-- The rune test of `sanitize` (internal/tshttp):
`unicode.IsLetter(r) || unicode.IsDigit(r) || r == rune('-')`.
`unicode.IsLetter` / `unicode.IsDigit` are modelled by `Char.isAlpha` /
`Char.isDigit`; the claims under study do not depend on non-ASCII classes. -/
def keepRune (r : Char) : Bool := r.isAlpha || r.isDigit || r == '-'

/-- Embeds `sanitize` (internal/tshttp): `strings.Map` keeping letters,
digits and hyphen, and replacing every other rune with an underscore. -/
def sanitize (path : GoStr) : GoStr :=
  path.map (fun r => if keepRune r then r else '_')

/-- Base-10 value of one rune, `none` for non-digits: one step of
`strconv.ParseUint` with base 10. -/
def digitVal (c : Char) : Option Nat :=
  if c.isDigit then some (c.toNat - '0'.toNat) else none

/-- Accumulates base-10 digits as `strconv.ParseUint` does; `none` as soon as
a non-digit rune is met. -/
def digitsVal : GoStr → Nat → Option Nat
  | [], acc => some acc
  | c :: rest, acc =>
    match digitVal c with
    | none => none
    | some d => digitsVal rest (acc * 10 + d)

/-- Embeds `strconv.ParseInt(s, 10, 64)`: an optional leading sign, then one
or more base-10 digits, with the signed 64-bit range check. Go detects
overflow against a step-wise cutoff; over unbounded naturals this agrees with
checking the final value. -/
def parseInt64 (s : GoStr) : Option Int :=
  match s with
  | '+' :: body =>
    if body.isEmpty then none
    else
      match digitsVal body 0 with
      | none => none
      | some n => if n < 2 ^ 63 then some ((n : Int)) else none
  | '-' :: body =>
    if body.isEmpty then none
    else
      match digitsVal body 0 with
      | none => none
      | some n => if n ≤ 2 ^ 63 then some (-(n : Int)) else none
  | body =>
    if body.isEmpty then none
    else
      match digitsVal body 0 with
      | none => none
      | some n => if n < 2 ^ 63 then some ((n : Int)) else none

/-- Embeds the `exporter` struct (cmd/tailmon): name, localhost port and the
machine hostname captured at parse time. -/
structure Exporter where
  name : GoStr
  port : Int
  hostname : GoStr
deriving DecidableEq

/-- Embeds `(*exporter).TailscaleNodeName`:
`fmt.Sprintf("tailmon/%s/%s", e.name, e.hostname)`. -/
def Exporter.TailscaleNodeName (e : Exporter) : GoStr :=
  str "tailmon/" ++ e.name ++ str "/" ++ e.hostname

/-- The two failure modes of `newExporter`: the fixed
`errors.New("use name-exporter:port format")` message (which does not quote
the offending input), and the `strconv` error, which names the offending
port substring. -/
inductive ExporterErr where
  | missingSep
  | numErr (portStr : GoStr)
deriving DecidableEq

/-- Embeds `newExporter` (cmd/tailmon). `os.Hostname()` is an effect outside
the program and enters as the `osHostname` argument: `some h` for a
successful resolution, `none` for a failed one (Go `err != nil`), in which
case the fixed sentinel `unknown` is substituted. -/
def newExporter (value : GoStr) (osHostname : Option GoStr) :
    Except ExporterErr Exporter :=
  match goCut ':' value with
  | none => .error .missingSep
  | some (name, portStr) =>
    match parseInt64 portStr with
    | none => .error (.numErr portStr)
    | some port =>
      .ok { name := name
            port := port
            hostname := match osHostname with
                        | some h => h
                        | none => str "unknown" }

/-- Model of `netip.Addr` as used by the discoverer: the family flag
(`Is4`), the numeric address value compared by `netip.Addr.Compare`
(IPv4 sorts before IPv6, then by value; zones are not used by this
repository), and the `String()` rendering carried as data. -/
structure Addr where
  is4 : Bool
  val : Nat
  render : GoStr
deriving DecidableEq

/-- `netip.Addr.Less` (via `Compare`): an IPv4 address sorts before any
IPv6 address, addresses of the same family compare by value. -/
def Addr.less (a b : Addr) : Bool :=
  (a.is4 && !b.is4) || ((a.is4 == b.is4) && decide (a.val < b.val))

/-- Embeds `formatAddr` (cmd/tailmon-discover): an IPv4 address renders
bare, anything else is bracket-quoted, followed by `:port`. -/
def formatAddr (addr : Addr) (port : Nat) : GoStr :=
  if addr.is4 then addr.render ++ str ":" ++ (toString port).data
  else str "[" ++ addr.render ++ str "]:" ++ (toString port).data

/-- The fields of `ipnstate.PeerStatus` consumed by the discoverer. -/
structure PeerStatus where
  hostName : GoStr
  dnsName : GoStr
  tailscaleIPs : List Addr
deriving DecidableEq

/-- Embeds the discoverer's `Endpoint`: the unexported sort key `ip`, plus
the JSON-visible `Targets` and `Labels`. The label map is stored as a
key-value list in the lexicographically sorted key order in which
`encoding/json` emits a Go map. -/
structure Endpoint where
  ip : Addr
  Targets : List GoStr
  Labels : List (GoStr × GoStr)
deriving DecidableEq

def exporterNameKey : GoStr := str "__meta_tailmon_exporter_name"

def nodeNameKey : GoStr := str "__meta_tailmon_node_name"

def dnsNameKey : GoStr := str "__meta_tailscale_dns_name"

/-- The hostname split of `findTailmonEndpoints`:
`strings.Cut(strings.TrimPrefix(v.HostName, prefix), "/")`, falling back,
when no slash is present, to the assignments of the `!ok` branch
(the full `v.HostName` as the exporter name, and the sentinel `unknown`
as the node name). -/
def peerExporterNode (v : PeerStatus) : GoStr × GoStr :=
  match goCut '/' (goTrimPre v.hostName (str "tailmon/")) with
  | some (ex, node) => (ex, node)
  | none => (v.hostName, str "unknown")

/-- The endpoint built for one qualifying peer: the body of the
`findTailmonEndpoints` loop after its two skip tests. Only the first
assigned address is published. The `headD` default is never reached:
the loop guards on a non-empty address list. -/
def peerEndpoint (v : PeerStatus) : Endpoint :=
  let ip := v.tailscaleIPs.headD ⟨true, 0, []⟩
  { ip := ip
    Targets := [formatAddr ip 80]
    Labels := [(exporterNameKey, (peerExporterNode v).1),
               (nodeNameKey, (peerExporterNode v).2),
               (dnsNameKey, v.dnsName)] }

/-- The peer-scan loop of `findTailmonEndpoints`: the two `continue` tests
(hostname lacks the `tailmon/` marker; no assigned addresses) followed by
endpoint construction, before sorting. The iteration sequence of the Go
peer map is taken as the input list. -/
def rawEndpoints : List PeerStatus → List Endpoint
  | [] => []
  | v :: rest =>
    if goHasPre v.hostName (str "tailmon/") = false then rawEndpoints rest
    else if v.tailscaleIPs.isEmpty then rawEndpoints rest
    else peerEndpoint v :: rawEndpoints rest

/-- The two admission tests of the loop, as one predicate. -/
def qualifies (v : PeerStatus) : Bool :=
  goHasPre v.hostName (str "tailmon/") && !v.tailscaleIPs.isEmpty

/-- The comparison under which `sort.SliceStable` leaves the slice:
position `i` may stay before `j` when `j`'s key is not less than `i`'s. -/
def epLE (a b : Endpoint) : Prop := Addr.less b.ip a.ip = false

instance : DecidableRel epLE := fun a b => by
  unfold epLE; infer_instance

/-- Embeds `findTailmonEndpoints` on a given peer iteration sequence: the
scan, then `sort.SliceStable(endpoints, ips Less)` — realised as the stable
insertion sort on the non-strict comparison, which is the unique stable
sort for this key order. -/
def findTailmonEndpoints (peers : List PeerStatus) : List Endpoint :=
  List.insertionSort epLE (rawEndpoints peers)

/-- JSON documents, as far as `encoding/json` output for this repository's
types requires. -/
inductive Json where
  | null
  | jstr (s : GoStr)
  | jarr (elems : List Json)
  | jobj (fields : List (GoStr × Json))

/-- Whether a document is a JSON array. -/
def Json.isArr : Json → Bool
  | .jarr _ => true
  | _ => false

/-- `encoding/json` marshaling of one `Endpoint`: struct fields in
declaration order; the label map with its keys in sorted order, as stored. -/
def endpointJson (e : Endpoint) : Json :=
  .jobj [(str "targets", .jarr (e.Targets.map .jstr)),
         (str "labels", .jobj (e.Labels.map (fun kv => (kv.1, .jstr kv.2))))]

/-- Embeds `marshalEndpoints`: `json.MarshalIndent` of the endpoint slice.
A Go slice that was never appended to is `nil` and marshals as JSON `null`;
a non-empty slice marshals as an array. Indentation does not affect the
document structure and is not modelled. -/
def marshalEndpoints (peers : List PeerStatus) : Json :=
  match findTailmonEndpoints peers with
  | [] => .null
  | es => .jarr (es.map endpointJson)

/-- A one-element array of strings: the required shape of `targets`. -/
def isTargetsField : Json → Bool
  | .jarr [.jstr _] => true
  | _ => false

/-- A string-to-string object: the required shape of `labels`. -/
def isLabelsField : Json → Bool
  | .jobj fs => fs.all (fun kv => match kv.2 with
      | .jstr _ => true
      | _ => false)
  | _ => false

/-- One discovery array element: an object carrying exactly a `targets`
one-element string array and a `labels` string-to-string mapping. -/
def endpointShaped : Json → Bool
  | .jobj [(k1, t), (k2, l)] =>
    (k1 == str "targets") && isTargetsField t &&
      ((k2 == str "labels") && isLabelsField l)
  | _ => false

/-- What the handler returned by `NewProxyHandler` (cmd/tailmon) does with
one request: hand it to the reverse proxy for the upstream URL, or answer
404 with the display name (and a newline) as body. -/
inductive ProxyOutcome where
  | proxied (upstream : GoStr)
  | notFound (status : Nat) (body : GoStr)
deriving DecidableEq

/-- The observable behaviour of the proxy filter on one request: the
outcome together with the informational log line it writes. -/
structure ProxyDecision where
  outcome : ProxyOutcome
  logMsg : GoStr
  logPath : GoStr
deriving DecidableEq

/-- Embeds the request function of `NewProxyHandler` as a function of the
request path; the upstream URL is carried opaquely. -/
def NewProxyHandler (upstreamURL : GoStr) (name : GoStr) (path : GoStr) :
    ProxyDecision :=
  if path = str "/metrics" then
    { outcome := .proxied upstreamURL
      logMsg := str "accept"
      logPath := path }
  else
    { outcome := .notFound 404 (name ++ str "\n")
      logMsg := str "reject"
      logPath := path }

/-- The configuration fields of `tshttp.Server` read by `init`. -/
structure ServerCfg where
  Name : GoStr
  ControlURL : GoStr
  StateDir : GoStr
  Debug : Bool
deriving DecidableEq

/-- The fields of the `tsnet.Server` that `init` constructs. The log sink
choice depends on the ambient logger and is not modelled. -/
structure TsnetCfg where
  Dir : GoStr
  Hostname : GoStr
  ControlURL : GoStr
deriving DecidableEq

/-- Embeds `(*Server).init` (internal/tshttp): field defaulting, the
per-identity state subdirectory `fmt.Sprintf("%s/data-%s", s.StateDir,
sanitize(s.Name))`, and the constructed `tsnet.Server`. The function runs
under `sync.Once`, i.e. over the fields as first seen; `os.MkdirAll` is a
side effect on the directory returned here. -/
def Server.init (s : ServerCfg) : ServerCfg × TsnetCfg :=
  let name := if s.Name = [] then str "unknown" else s.Name
  let stateDir := if s.StateDir = [] then str "." else s.StateDir
  let dir := stateDir ++ str "/data-" ++ sanitize name
  ({ s with Name := name, StateDir := stateDir },
   { Dir := dir, Hostname := name, ControlURL := s.ControlURL })

/-- The fields of `ipnstate.Status` read by the authentication-wait loop.
The addresses are carried already rendered, as the loop only stringifies
them. -/
structure SelfStatus where
  BackendState : GoStr
  AuthURL : GoStr
  TailscaleIPs : List GoStr
  SelfID : GoStr
  SelfDNSName : GoStr
deriving DecidableEq

/-- One `StatusWithoutPeers` call: Go's `(ss, err)` pair. -/
inductive StatusResult where
  | failure (err : GoStr)
  | success (ss : SelfStatus)
deriving DecidableEq

/-- The observable events of one loop iteration: the log calls
(`errStatus` and `errNeedsAuth` are written at error severity,
`debugStatus` at debug, `infoRunning` at info severity) and the
1-second sleep separating consecutive polls. -/
inductive PollEvent where
  | errStatus (err : GoStr)
  | debugStatus (state url : GoStr)
  | infoRunning (id dns : GoStr) (ips : List GoStr)
  | errNeedsAuth (url : GoStr)
  | sleepOneSecond
deriving DecidableEq

/-- One iteration of the authentication-wait loop body (internal/tshttp
`Start`): the events it logs, and whether it breaks out of the loop —
which happens exactly on `BackendState == "Running"`. A failed query logs
and continues; a successful non-running status with a non-empty `AuthURL`
logs the URL at error severity. -/
def pollStep (r : StatusResult) : List PollEvent × Bool :=
  match r with
  | .failure err => ([.errStatus err], false)
  | .success ss =>
    if ss.BackendState = str "Running" then
      ([.debugStatus ss.BackendState ss.AuthURL,
        .infoRunning ss.SelfID ss.SelfDNSName ss.TailscaleIPs], true)
    else if ¬ ss.AuthURL = str "" then
      ([.debugStatus ss.BackendState ss.AuthURL,
        .errNeedsAuth ss.AuthURL], false)
    else
      ([.debugStatus ss.BackendState ss.AuthURL], false)

/-- Whether one query observes `BackendState == "Running"`. -/
def isRunning (r : StatusResult) : Bool :=
  match r with
  | .failure _ => false
  | .success ss => ss.BackendState == str "Running"

/-- The authentication-wait loop run against an oracle giving each
successive `StatusWithoutPeers` result, observed for `fuel` iterations
starting at iteration `i`: the per-iteration event lists (every iteration
that does not break ends with the loop's 1-second sleep) and whether the
loop has exited within the window. The loop has no other exit. -/
def pollLoop (oracle : Nat → StatusResult) : Nat → Nat → List (List PollEvent) × Bool
  | _, 0 => ([], false)
  | i, fuel + 1 =>
    if (pollStep (oracle i)).2 then ([(pollStep (oracle i)).1], true)
    else
      (((pollStep (oracle i)).1 ++ [.sleepOneSecond]) :: (pollLoop oracle (i + 1) fuel).1,
       (pollLoop oracle (i + 1) fuel).2)

/-- A status oracle used to exercise the polling loop on concrete data: a
transient query failure, then a status still waiting on authentication,
then a running status. -/
def pollOracleEx : Nat → StatusResult := fun n =>
  if n = 0 then .failure (str "boom")
  else if n = 1 then
    .success { BackendState := str "NeedsLogin"
               AuthURL := str "https://login.tailscale.com/a/x"
               TailscaleIPs := []
               SelfID := str "id0"
               SelfDNSName := str "d0." }
  else
    .success { BackendState := str "Running"
               AuthURL := str ""
               TailscaleIPs := [str "100.64.0.9"]
               SelfID := str "id0"
               SelfDNSName := str "d0." }

/-- A status oracle whose queries always fail. -/
def pollOracleFail : Nat → StatusResult := fun _ => .failure (str "down")

/-- The specification's worked example: a registered node-exporter peer. -/
def peerHost1 : PeerStatus :=
  { hostName := str "tailmon/node-exporter/host1"
    dnsName := str "host1.example.com."
    tailscaleIPs := [{ is4 := true, val := 1684996097, render := str "100.64.0.1" }] }

/-- The specification's worked example: a registered postgres-exporter peer. -/
def peerHost2 : PeerStatus :=
  { hostName := str "tailmon/postgres-exporter/host2"
    dnsName := str "host2.example.com."
    tailscaleIPs := [{ is4 := true, val := 1684996098, render := str "100.64.0.2" }] }

/-- The specification's worked example: a peer without the registration
marker, to be excluded. -/
def peerOther : PeerStatus :=
  { hostName := str "other-service"
    dnsName := str "other.example.com."
    tailscaleIPs := [{ is4 := true, val := 99, render := str "100.64.0.3" }] }




instance : IsTotal Endpoint epLE := ⟨by
  intro a b
  unfold epLE Addr.less
  cases h1 : a.ip.is4 <;> cases h2 : b.ip.is4 <;> simp [h1, h2] <;> omega⟩

instance : IsTrans Endpoint epLE := ⟨by
  intro a b c hab hbc
  unfold epLE Addr.less at *
  cases h1 : a.ip.is4 <;> cases h2 : b.ip.is4 <;> cases h3 : c.ip.is4 <;>
    simp [h1, h2, h3] at * <;> omega⟩

theorem Addr.less_irrefl (a : Addr) : Addr.less a a = false := by
  unfold Addr.less
  cases h : a.is4 <;> simp [h]



/-- The underscore substitute itself fails the keep test. -/
theorem keepRune_underscore : keepRune '_' = false := by decide

/-- One rune of `sanitize`, applied twice, equals one application. -/
theorem sanitizeRune_idem (c : Char) :
    (if keepRune (if keepRune c then c else '_') then (if keepRune c then c else '_') else '_') =
      (if keepRune c then c else '_') := by
  by_cases h : keepRune c = true
  · simp [h]
  · simp [h, keepRune_underscore]

/-- C2 counterexample: the claim that every rune of a sanitized string is a
letter, a digit or a hyphen fails at the input `"a b"`, whose sanitized form
contains an underscore. -/
theorem c2_sanitize_claim_false :
    '_' ∈ sanitize (str "a b") ∧ keepRune '_' = false := by decide

/-- C2 (amended): sanitization is idempotent — in particular it is the
identity on already-sanitized strings — and every rune of a sanitized string
is a letter, a digit, a hyphen, or an underscore. -/
theorem c2_sanitize_idempotent_and_range (s : GoStr) :
    sanitize (sanitize s) = sanitize s ∧
    ∀ c ∈ sanitize s, (keepRune c || (c == '_')) = true := by
  constructor
  · unfold sanitize
    rw [List.map_map]
    apply List.map_congr_left
    intro c _
    exact sanitizeRune_idem c
  · intro c hc
    unfold sanitize at hc
    rcases List.mem_map.mp hc with ⟨x, _, rfl⟩
    by_cases h : keepRune x = true
    · simp [h]
    · simp [h, keepRune_underscore]

/-- Witness for the amended C2 at the concrete input `"a b"`. -/
theorem c2_sanitize_witness :
    sanitize (sanitize (str "a b")) = sanitize (str "a b") ∧
    (keepRune 'a' || ('a' == '_')) = true :=
  ⟨(c2_sanitize_idempotent_and_range (str "a b")).1,
   (c2_sanitize_idempotent_and_range (str "a b")).2 'a' (by decide)⟩

/-- C8: the proxy filter hands a request to the reverse proxy for the
configured upstream exactly when its path is `/metrics` (logging acceptance);
every other path is answered 404 with the display name in the body (logging
rejection) and never reaches the upstream. -/
theorem c8_proxy_filter (upstreamURL name path : GoStr) :
    ((NewProxyHandler upstreamURL name path).outcome = .proxied upstreamURL ↔
      path = str "/metrics") ∧
    (path = str "/metrics" →
      NewProxyHandler upstreamURL name path =
        { outcome := .proxied upstreamURL
          logMsg := str "accept"
          logPath := path }) ∧
    (¬ path = str "/metrics" →
      NewProxyHandler upstreamURL name path =
        { outcome := .notFound 404 (name ++ str "\n")
          logMsg := str "reject"
          logPath := path }) := by
  unfold NewProxyHandler
  by_cases h : path = str "/metrics" <;> simp [h]

/-- Witness for C8: `/metrics` is proxied, `/` draws a 404 carrying the
display name. -/
theorem c8_proxy_filter_witness :
    NewProxyHandler (str "http://localhost:9100") (str "tailmon/node-exporter/h") (str "/metrics") =
      { outcome := .proxied (str "http://localhost:9100")
        logMsg := str "accept"
        logPath := str "/metrics" } ∧
    NewProxyHandler (str "http://localhost:9100") (str "tailmon/node-exporter/h") (str "/") =
      { outcome := .notFound 404 (str "tailmon/node-exporter/h" ++ str "\n")
        logMsg := str "reject"
        logPath := str "/" } :=
  ⟨(c8_proxy_filter _ _ _).2.1 rfl,
   (c8_proxy_filter _ _ _).2.2 (by decide)⟩

/-- C10: `init` defaults an empty `Name` to `unknown` and an empty `StateDir`
to `.`; afterwards both are non-empty, the overlay handle's hostname is the
possibly-defaulted name, and its state directory is
`StateDir ++ "/data-" ++ sanitize Name`. -/
theorem c10_init_defaults (s : ServerCfg) :
    (Server.init s).1.Name = (if s.Name = [] then str "unknown" else s.Name) ∧
    (Server.init s).1.StateDir = (if s.StateDir = [] then str "." else s.StateDir) ∧
    ¬ (Server.init s).1.Name = [] ∧
    ¬ (Server.init s).1.StateDir = [] ∧
    (Server.init s).2.Hostname = (Server.init s).1.Name ∧
    (Server.init s).2.Dir =
      (Server.init s).1.StateDir ++ str "/data-" ++ sanitize (Server.init s).1.Name := by
  refine ⟨rfl, rfl, ?_, ?_, rfl, rfl⟩
  · show ¬ (if s.Name = [] then str "unknown" else s.Name) = []
    by_cases h : s.Name = []
    · simp [h, str]
    · simp [h]
  · show ¬ (if s.StateDir = [] then str "." else s.StateDir) = []
    by_cases h : s.StateDir = []
    · simp [h, str]
    · simp [h]

/-- Witness for C10 at an empty name and a set state directory. -/
theorem c10_init_defaults_witness :
    (Server.init { Name := [], ControlURL := [], StateDir := str "/var/lib/tailmon",
                   Debug := false }).2.Dir =
      str "/var/lib/tailmon" ++ str "/data-" ++ sanitize (str "unknown") :=
  (c10_init_defaults _).2.2.2.2.2



/-- C3 counterexample: the registration parser accepts `"x:0"` (port 0, below
the claimed 1–65535 range) and `":9100"` (empty name), so it does not succeed
exactly on the claimed inputs. -/
theorem c3_parse_claim_false :
    (newExporter (str "x:0") (some (str "h"))).toOption =
      some { name := str "x", port := 0, hostname := str "h" } ∧
    ¬ ((1 : Int) ≤ 0 ∧ (0 : Int) ≤ 65535) ∧
    (newExporter (str ":9100") (some (str "h"))).toOption =
      some { name := [], port := 9100, hostname := str "h" } := by
  refine ⟨rfl, by decide, rfl⟩

/-- C3 (amended): the parser succeeds exactly when the input contains a `:`
and the part after the first `:` parses as an optionally-signed base-10
64-bit integer — the name may be empty and the port value is not range
checked; a missing separator fails with the fixed format message (which does
not quote the input), a bad number fails with the numeric error naming the
port substring. -/
theorem c3_parse_characterisation (value : GoStr) (host : Option GoStr) :
    ((newExporter value host).isOk = true ↔
      ∃ name portStr, goCut ':' value = some (name, portStr) ∧
        (parseInt64 portStr).isSome = true) ∧
    (goCut ':' value = none → newExporter value host = .error .missingSep) ∧
    (∀ name portStr, goCut ':' value = some (name, portStr) →
      parseInt64 portStr = none →
      newExporter value host = .error (.numErr portStr)) := by
  unfold newExporter
  cases hcut : goCut ':' value with
  | none => simp [Except.isOk, Except.toBool]
  | some np =>
    obtain ⟨name, portStr⟩ := np
    cases hp : parseInt64 portStr with
    | none => simp [hp, Except.isOk, Except.toBool]
    | some port =>
      simp [hp, Except.isOk, Except.toBool]
      exact ⟨name, portStr, ⟨rfl, rfl⟩, by simp [hp]⟩

/-- Witness for the amended C3: a well-formed registration parses. -/
theorem c3_parse_witness :
    (newExporter (str "node-exporter:9100") (some (str "h"))).isOk = true :=
  (c3_parse_characterisation (str "node-exporter:9100") (some (str "h"))).1.mpr
    ⟨str "node-exporter", str "9100", by decide, by decide⟩

/-- C7: a successful parse of `name:port` yields a registration whose derived
overlay hostname is `tailmon/<name>/<resolvedHostname>`, the resolved
hostname being the sentinel `unknown` when local resolution failed; inputs
missing `:` or whose port part is not numeric fail. -/
theorem c7_registration_hostname (value : GoStr) (host : Option GoStr) :
    (∀ name portStr e, goCut ':' value = some (name, portStr) →
      newExporter value host = .ok e →
      e.TailscaleNodeName =
        str "tailmon/" ++ name ++ str "/" ++
          (match host with
           | some h => h
           | none => str "unknown")) ∧
    (goCut ':' value = none → (newExporter value host).isOk = false) ∧
    (∀ name portStr, goCut ':' value = some (name, portStr) →
      parseInt64 portStr = none → (newExporter value host).isOk = false) := by
  refine ⟨?_, ?_, ?_⟩
  · intro name portStr e hcut hok
    cases hp : parseInt64 portStr with
    | none =>
      simp only [newExporter, hcut, hp] at hok
      simp at hok
    | some port =>
      simp only [newExporter, hcut, hp, Except.ok.injEq] at hok
      rw [← hok]
      cases host <;> rfl
  · intro hcut
    simp [newExporter, hcut, Except.isOk, Except.toBool]
  · intro name portStr hcut hp
    simp [newExporter, hcut, hp, Except.isOk, Except.toBool]

/-- Witness for C7: parsing `node-exporter:9100` under failed hostname
resolution derives the hostname `tailmon/node-exporter/unknown`. -/
theorem c7_registration_hostname_witness :
    (Exporter.TailscaleNodeName
      { name := str "node-exporter", port := 9100, hostname := str "unknown" }) =
      str "tailmon/" ++ str "node-exporter" ++ str "/" ++ str "unknown" :=
  (c7_registration_hostname (str "node-exporter:9100") none).1
    (str "node-exporter") (str "9100") _ (by decide) rfl



/-- A qualifying peer of the scan list contributes its endpoint. -/
theorem mem_rawEndpoints {peers : List PeerStatus} {v : PeerStatus}
    (hv : v ∈ peers) (hq : qualifies v = true) :
    peerEndpoint v ∈ rawEndpoints peers := by
  have hq' := hq
  unfold qualifies at hq'
  rw [Bool.and_eq_true] at hq'
  induction peers with
  | nil => cases hv
  | cons w rest ih =>
    rcases List.mem_cons.mp hv with rfl | hmem
    · unfold rawEndpoints
      rw [if_neg, if_neg]
      · exact List.mem_cons_self _ _
      · simpa using hq'.2
      · simp [hq'.1]
    · unfold rawEndpoints
      by_cases h1 : goHasPre w.hostName (str "tailmon/") = false
      · rw [if_pos h1]; exact ih hmem
      · rw [if_neg h1]
        by_cases h2 : w.tailscaleIPs.isEmpty = true
        · rw [if_pos h2]; exact ih hmem
        · rw [if_neg h2]; exact List.mem_cons_of_mem _ (ih hmem)

/-- C1 counterexample: for the peer hostname `tailmon/custom-exporter` the
exporter-name label is the full hostname `tailmon/custom-exporter`, not the
remainder `custom-exporter` the claim promises. -/
theorem c1_no_slash_claim_false :
    (findTailmonEndpoints
        [{ hostName := str "tailmon/custom-exporter"
           dnsName := str "custom.example.com."
           tailscaleIPs := [{ is4 := true, val := 1684996097, render := str "100.64.0.1" }] }]).map
        Endpoint.Labels =
      [[(exporterNameKey, str "tailmon/custom-exporter"),
        (nodeNameKey, str "unknown"),
        (dnsNameKey, str "custom.example.com.")]] ∧
    ¬ str "tailmon/custom-exporter" = str "custom-exporter" := by
  refine ⟨by decide, by decide⟩

/-- C1 (amended): a peer whose hostname has the `tailmon/` marker but no
further `/` after it, and at least one address, yields an endpoint whose
node-name label is the sentinel `unknown` and whose exporter-name label is
the peer's full hostname (the marker included). -/
theorem c1_no_slash_labels (peers : List PeerStatus) (v : PeerStatus)
    (hv : v ∈ peers)
    (hpre : goHasPre v.hostName (str "tailmon/") = true)
    (hnos : goCut '/' (goTrimPre v.hostName (str "tailmon/")) = none)
    (hips : ¬ v.tailscaleIPs = []) :
    ∃ e ∈ findTailmonEndpoints peers,
      e.Labels = [(exporterNameKey, v.hostName),
                  (nodeNameKey, str "unknown"),
                  (dnsNameKey, v.dnsName)] := by
  refine ⟨peerEndpoint v, ?_, ?_⟩
  · rw [findTailmonEndpoints, List.mem_insertionSort]
    refine mem_rawEndpoints hv ?_
    unfold qualifies
    rw [Bool.and_eq_true, hpre]
    exact ⟨rfl, by simpa using hips⟩
  · simp [peerEndpoint, peerExporterNode, hnos]

/-- Witness for the amended C1 at the peer `tailmon/custom-exporter`. -/
theorem c1_no_slash_labels_witness :
    ∃ e ∈ findTailmonEndpoints
        [{ hostName := str "tailmon/custom-exporter"
           dnsName := str "custom.example.com."
           tailscaleIPs := [{ is4 := true, val := 1684996097, render := str "100.64.0.1" }] }],
      e.Labels = [(exporterNameKey, str "tailmon/custom-exporter"),
                  (nodeNameKey, str "unknown"),
                  (dnsNameKey, str "custom.example.com.")] :=
  c1_no_slash_labels _ _ (List.mem_singleton.mpr rfl) (by decide) (by decide) (by decide)



/-- The scan loop is the filter of qualifying peers followed by endpoint
construction. -/
theorem rawEndpoints_eq_filter_map (peers : List PeerStatus) :
    rawEndpoints peers = (peers.filter qualifies).map peerEndpoint := by
  induction peers with
  | nil => rfl
  | cons v rest ih =>
    unfold rawEndpoints
    rw [List.filter_cons]
    by_cases h1 : goHasPre v.hostName (str "tailmon/") = false
    · have hq : qualifies v = false := by simp [qualifies, h1]
      rw [if_pos h1, hq, ih]
      simp
    · rw [if_neg h1]
      have h1' : goHasPre v.hostName (str "tailmon/") = true := by
        simpa using h1
      by_cases h2 : v.tailscaleIPs.isEmpty = true
      · have hq : qualifies v = false := by simp [qualifies, h2]
        rw [if_pos h2, hq, ih]
        simp
      · have hq : qualifies v = true := by
          simp [qualifies, h1']
          simpa using h2
        rw [if_neg h2, hq, ih]
        simp

/-- Every scanned endpoint is the endpoint of some qualifying peer. -/
theorem exists_peer_of_mem_raw {peers : List PeerStatus} {e : Endpoint}
    (he : e ∈ rawEndpoints peers) :
    ∃ v, qualifies v = true ∧ e = peerEndpoint v := by
  rw [rawEndpoints_eq_filter_map] at he
  rcases List.mem_map.mp he with ⟨v, hvmem, rfl⟩
  exact ⟨v, (List.mem_filter.mp hvmem).2, rfl⟩

/-- The JSON document of a constructed endpoint always has the required
element shape. -/
theorem peerEndpoint_json_shaped (v : PeerStatus) :
    endpointShaped (endpointJson (peerEndpoint v)) = true := rfl

/-- C4 counterexample: for a peer list with no qualifying peer, the
serialized discovery document is JSON `null`, not an array. -/
theorem c4_marshal_claim_false :
    marshalEndpoints
        [{ hostName := str "other-service"
           dnsName := str "other.example.com."
           tailscaleIPs := [{ is4 := true, val := 99, render := str "100.64.0.3" }] }] =
      Json.null ∧
    (marshalEndpoints
        [{ hostName := str "other-service"
           dnsName := str "other.example.com."
           tailscaleIPs := [{ is4 := true, val := 99, render := str "100.64.0.3" }] }]).isArr =
      false :=
  ⟨rfl, rfl⟩

/-- C4 (amended): with at least one qualifying peer the serialized document
is a JSON array whose elements each carry a `targets` one-element string
array and a `labels` string-to-string mapping; with no qualifying peer the
document is JSON `null`. -/
theorem c4_marshal_shape (peers : List PeerStatus) :
    (findTailmonEndpoints peers = [] ∧ marshalEndpoints peers = Json.null) ∨
    (∃ es, ¬ es = [] ∧ marshalEndpoints peers = Json.jarr es ∧
      es.all endpointShaped = true) := by
  cases hfe : findTailmonEndpoints peers with
  | nil =>
    left
    exact ⟨rfl, by simp only [marshalEndpoints, hfe]⟩
  | cons e es =>
    right
    refine ⟨(e :: es).map endpointJson, by simp, by simp only [marshalEndpoints, hfe], ?_⟩
    rw [List.all_eq_true]
    intro x hx
    rcases List.mem_map.mp hx with ⟨ep, hep, rfl⟩
    have hraw : ep ∈ rawEndpoints peers := by
      have hmem : ep ∈ findTailmonEndpoints peers := by
        rw [hfe]; exact hep
      rw [findTailmonEndpoints, List.mem_insertionSort] at hmem
      exact hmem
    rcases exists_peer_of_mem_raw hraw with ⟨v, _, rfl⟩
    exact peerEndpoint_json_shaped v

/-- The target string of `formatAddr` at port 80, with the port rendered. -/
theorem formatAddr_80 (a : Addr) :
    formatAddr a 80 = if a.is4 then a.render ++ str ":80"
                      else str "[" ++ a.render ++ str "]:80" := by
  unfold formatAddr
  by_cases h : a.is4 = true
  · rw [if_pos h, if_pos h, List.append_assoc]
    rfl
  · rw [if_neg h, if_neg h, List.append_assoc]
    rfl

/-- C5: the enumerator admits a peer exactly when its hostname bears the
`tailmon/` marker and it has at least one address; each admitted peer
contributes exactly one endpoint, whose target is its first address joined
with port 80 (bracket-quoted exactly when the address is not IPv4) and whose
labels are the exporter name, the node name and the overlay DNS name. -/
theorem c5_enumerator (peers : List PeerStatus) :
    rawEndpoints peers = (peers.filter qualifies).map peerEndpoint ∧
    (findTailmonEndpoints peers).Perm ((peers.filter qualifies).map peerEndpoint) ∧
    ∀ v ∈ peers, qualifies v = true →
      ∃ a rest, v.tailscaleIPs = a :: rest ∧
        peerEndpoint v =
          { ip := a
            Targets := [if a.is4 then a.render ++ str ":80"
                        else str "[" ++ a.render ++ str "]:80"]
            Labels := [(exporterNameKey, (peerExporterNode v).1),
                       (nodeNameKey, (peerExporterNode v).2),
                       (dnsNameKey, v.dnsName)] } := by
  refine ⟨rawEndpoints_eq_filter_map peers, ?_, ?_⟩
  · rw [findTailmonEndpoints, ← rawEndpoints_eq_filter_map]
    exact List.perm_insertionSort _ _
  · intro v _ hq
    have hne : ¬ v.tailscaleIPs = [] := by
      unfold qualifies at hq
      rw [Bool.and_eq_true] at hq
      simpa using hq.2
    cases hips : v.tailscaleIPs with
    | nil => exact absurd hips hne
    | cons a rest =>
      refine ⟨a, rest, rfl, ?_⟩
      simp only [peerEndpoint, hips, List.headD_cons, formatAddr_80]

/-- Witness for C5 at the specification's worked example. -/
theorem c5_enumerator_witness :
    ∃ a rest, peerHost1.tailscaleIPs = a :: rest ∧
      peerEndpoint peerHost1 =
        { ip := a
          Targets := [if a.is4 then a.render ++ str ":80"
                      else str "[" ++ a.render ++ str "]:80"]
          Labels := [(exporterNameKey, (peerExporterNode peerHost1).1),
                     (nodeNameKey, (peerExporterNode peerHost1).2),
                     (dnsNameKey, peerHost1.dnsName)] } :=
  (c5_enumerator [peerHost1, peerHost2, peerOther]).2.2 peerHost1
    (by decide) (by decide)



/-- Inserting an element into a list moves it past every strictly smaller
element only, so a filter selecting one equivalence class of the order sees
the insertion at its end. -/
theorem filter_orderedInsert_epLE (p : Endpoint → Bool) (a : Endpoint)
    (h : p a = true → ∀ b, p b = true → epLE a b) :
    ∀ l : List Endpoint,
      (List.orderedInsert epLE a l).filter p =
        if p a then a :: l.filter p else l.filter p := by
  intro l
  induction l with
  | nil =>
    rw [List.orderedInsert_nil, List.filter_cons]
  | cons b l ih =>
    rw [List.orderedInsert]
    by_cases hr : epLE a b
    · rw [if_pos hr, List.filter_cons, List.filter_cons]
    · rw [if_neg hr, List.filter_cons, List.filter_cons]
      by_cases hpb : p b = true
      · by_cases hpa : p a = true
        · exact absurd (h hpa b hpb) hr
        · simp [hpa, hpb, ih]
      · by_cases hpa : p a = true <;> simp [hpa, hpb, ih]

/-- The stable insertion sort leaves each equivalence class of the order as
a subsequence in its original relative order. -/
theorem filter_insertionSort_epLE (p : Endpoint → Bool)
    (hp : ∀ a b, p a = true → p b = true → epLE a b) :
    ∀ l : List Endpoint, (List.insertionSort epLE l).filter p = l.filter p := by
  intro l
  induction l with
  | nil => rfl
  | cons a l ih =>
    rw [List.insertionSort,
        filter_orderedInsert_epLE p a (fun hpa b hpb => hp a b hpa hpb),
        List.filter_cons, ih]

/-- C6: the enumerator's output is the scanned endpoint list sorted
ascending by the underlying network address, by a stable sort: endpoints
with equal addresses keep their encounter order from the peer list. -/
theorem c6_sorted_stable (peers : List PeerStatus) :
    (findTailmonEndpoints peers).Perm (rawEndpoints peers) ∧
    List.Sorted epLE (findTailmonEndpoints peers) ∧
    ∀ k : Addr,
      (findTailmonEndpoints peers).filter (fun e => e.ip == k) =
        (rawEndpoints peers).filter (fun e => e.ip == k) := by
  refine ⟨List.perm_insertionSort _ _, List.sorted_insertionSort _ _, ?_⟩
  intro k
  refine filter_insertionSort_epLE _ ?_ _
  intro a b ha hb
  have ha' : a.ip = k := by simpa using ha
  have hb' : b.ip = k := by simpa using hb
  unfold epLE
  rw [ha', hb']
  exact Addr.less_irrefl k



/-- The loop body breaks exactly on an observed `Running` state. -/
theorem pollStep_snd (r : StatusResult) : (pollStep r).2 = isRunning r := by
  cases r with
  | failure err => rfl
  | success ss =>
    unfold pollStep isRunning
    by_cases h : ss.BackendState = str "Running"
    · simp [h]
    · by_cases h2 : ss.AuthURL = str ""
      · simp [h, h2]
      · simp [h, h2]

/-- Unfolding the loop at an iteration that observes `Running`. -/
theorem pollLoop_succ_pos (oracle : Nat → StatusResult) (i n : Nat)
    (h : isRunning (oracle i) = true) :
    pollLoop oracle i (n + 1) = ([(pollStep (oracle i)).1], true) := by
  simp [pollLoop, pollStep_snd, h]

/-- Unfolding the loop at an iteration that does not observe `Running`. -/
theorem pollLoop_succ_neg (oracle : Nat → StatusResult) (i n : Nat)
    (h : isRunning (oracle i) = false) :
    pollLoop oracle i (n + 1) =
      (((pollStep (oracle i)).1 ++ [PollEvent.sleepOneSecond]) ::
          (pollLoop oracle (i + 1) n).1,
        (pollLoop oracle (i + 1) n).2) := by
  simp [pollLoop, pollStep_snd, h]

/-- The loop exits within a window exactly when some query in the window
observes `Running`. -/
theorem pollLoop_done_iff (oracle : Nat → StatusResult) :
    ∀ fuel i : Nat,
      (pollLoop oracle i fuel).2 = true ↔
        ∃ j, j < fuel ∧ isRunning (oracle (i + j)) = true := by
  intro fuel
  induction fuel with
  | zero =>
    intro i
    simp [pollLoop]
  | succ n ih =>
    intro i
    cases h : isRunning (oracle i) with
    | true =>
      rw [pollLoop_succ_pos oracle i n h]
      constructor
      · intro _
        exact ⟨0, by omega, by rw [Nat.add_zero]; exact h⟩
      · intro _
        rfl
    | false =>
      rw [pollLoop_succ_neg oracle i n h]
      dsimp only
      rw [ih (i + 1)]
      constructor
      · rintro ⟨j, hj, hr⟩
        refine ⟨j + 1, by omega, ?_⟩
        have he : i + (j + 1) = i + 1 + j := by omega
        rw [he]
        exact hr
      · rintro ⟨j, hj, hr⟩
        cases j with
        | zero =>
          rw [Nat.add_zero] at hr
          rw [h] at hr
          simp at hr
        | succ j =>
          refine ⟨j, by omega, ?_⟩
          have he : i + 1 + j = i + (j + 1) := by omega
          rw [he]
          exact hr

/-- Each executed iteration's event list: the body's log calls, followed by
the 1-second sleep unless the iteration broke out. -/
theorem pollLoop_getD (oracle : Nat → StatusResult) :
    ∀ fuel i j : Nat, j < (pollLoop oracle i fuel).1.length →
      (pollLoop oracle i fuel).1.getD j [] =
        (pollStep (oracle (i + j))).1 ++
          (if isRunning (oracle (i + j)) = true then []
           else [PollEvent.sleepOneSecond]) := by
  intro fuel
  induction fuel with
  | zero =>
    intro i j hj
    simp [pollLoop] at hj
  | succ n ih =>
    intro i j hj
    cases h : isRunning (oracle i) with
    | true =>
      rw [pollLoop_succ_pos oracle i n h] at hj ⊢
      have hj0 : j = 0 := by
        simpa using hj
      subst hj0
      simp [h]
    | false =>
      rw [pollLoop_succ_neg oracle i n h] at hj ⊢
      dsimp only at hj ⊢
      cases j with
      | zero =>
        simp [h]
      | succ j =>
        rw [List.getD_cons_succ]
        have hj' : j < (pollLoop oracle (i + 1) n).1.length := by
          rw [List.length_cons] at hj
          omega
        have hrec := ih (i + 1) j hj'
        have he : i + 1 + j = i + (j + 1) := by omega
        rw [he] at hrec
        exact hrec

/-- A window in which no query observes `Running` is fully used: one
iteration per unit of fuel, and the loop is still going. -/
theorem pollLoop_len_no_run (oracle : Nat → StatusResult) :
    ∀ fuel i : Nat, (∀ j, j < fuel → isRunning (oracle (i + j)) = false) →
      (pollLoop oracle i fuel).1.length = fuel ∧
        (pollLoop oracle i fuel).2 = false := by
  intro fuel
  induction fuel with
  | zero =>
    intro i _
    exact ⟨rfl, rfl⟩
  | succ n ih =>
    intro i hno
    have h0 : isRunning (oracle i) = false := by
      have := hno 0 (by omega)
      rwa [Nat.add_zero] at this
    rw [pollLoop_succ_neg oracle i n h0]
    dsimp only
    have hrec := ih (i + 1) (fun j hj => by
      have := hno (j + 1) (by omega)
      have he : i + (j + 1) = i + 1 + j := by omega
      rwa [he] at this)
    exact ⟨by rw [List.length_cons, hrec.1], hrec.2⟩

/-- An iteration that observes `Running` is the last one: the loop breaks
there. -/
theorem pollLoop_run_stop (oracle : Nat → StatusResult) :
    ∀ fuel i j : Nat, j < (pollLoop oracle i fuel).1.length →
      isRunning (oracle (i + j)) = true →
      (pollLoop oracle i fuel).1.length = j + 1 ∧
        (pollLoop oracle i fuel).2 = true := by
  intro fuel
  induction fuel with
  | zero =>
    intro i j hj _
    simp [pollLoop] at hj
  | succ n ih =>
    intro i j hj hrun
    cases h : isRunning (oracle i) with
    | true =>
      rw [pollLoop_succ_pos oracle i n h] at hj ⊢
      have hj0 : j = 0 := by
        simpa using hj
      subst hj0
      exact ⟨rfl, rfl⟩
    | false =>
      rw [pollLoop_succ_neg oracle i n h] at hj ⊢
      dsimp only at hj ⊢
      cases j with
      | zero =>
        rw [Nat.add_zero, h] at hrun
        simp at hrun
      | succ j =>
        have hj' : j < (pollLoop oracle (i + 1) n).1.length := by
          rw [List.length_cons] at hj
          omega
        have hrun' : isRunning (oracle (i + 1 + j)) = true := by
          have he : i + 1 + j = i + (j + 1) := by omega
          rw [he]
          exact hrun
        have hrec := ih (i + 1) j hj' hrun'
        exact ⟨by rw [List.length_cons, hrec.1], hrec.2⟩

/-- C9: the authentication-wait loop terminates exactly by observing
backend state `Running`; a failed status query logs an error and the
iteration ends with the fixed 1-second sleep before the next poll (so with
no `Running` observation every iteration of the window runs — the retry
goes on indefinitely); a successful non-running status carrying an
authentication URL logs it at error severity on that poll; and the
`Running` observation logs the identity and assigned addresses and is the
loop's last iteration. -/
theorem c9_poll_loop (oracle : Nat → StatusResult) (fuel : Nat) :
    ((pollLoop oracle 0 fuel).2 = true ↔
      ∃ i, i < fuel ∧ isRunning (oracle i) = true) ∧
    ((∀ i, i < fuel → isRunning (oracle i) = false) →
      (pollLoop oracle 0 fuel).1.length = fuel ∧
        (pollLoop oracle 0 fuel).2 = false) ∧
    (∀ i, ∀ hi : i < (pollLoop oracle 0 fuel).1.length,
      (pollLoop oracle 0 fuel).1.get ⟨i, hi⟩ =
        (pollStep (oracle i)).1 ++
          (if isRunning (oracle i) = true then []
           else [PollEvent.sleepOneSecond])) ∧
    (∀ i, ∀ hi : i < (pollLoop oracle 0 fuel).1.length, ∀ err,
      oracle i = .failure err →
      PollEvent.errStatus err ∈ (pollLoop oracle 0 fuel).1.get ⟨i, hi⟩) ∧
    (∀ i, ∀ hi : i < (pollLoop oracle 0 fuel).1.length, ∀ ss,
      oracle i = .success ss → ¬ ss.BackendState = str "Running" →
      ¬ ss.AuthURL = str "" →
      PollEvent.errNeedsAuth ss.AuthURL ∈
        (pollLoop oracle 0 fuel).1.get ⟨i, hi⟩) ∧
    (∀ i, ∀ hi : i < (pollLoop oracle 0 fuel).1.length, ∀ ss,
      oracle i = .success ss → ss.BackendState = str "Running" →
      (pollLoop oracle 0 fuel).1.length = i + 1 ∧
        (pollLoop oracle 0 fuel).2 = true ∧
        PollEvent.infoRunning ss.SelfID ss.SelfDNSName ss.TailscaleIPs ∈
          (pollLoop oracle 0 fuel).1.get ⟨i, hi⟩) := by
  have hget : ∀ i, ∀ hi : i < (pollLoop oracle 0 fuel).1.length,
      (pollLoop oracle 0 fuel).1.get ⟨i, hi⟩ =
        (pollStep (oracle i)).1 ++
          (if isRunning (oracle i) = true then []
           else [PollEvent.sleepOneSecond]) := by
    intro i hi
    have hg := pollLoop_getD oracle fuel 0 i hi
    rw [Nat.zero_add] at hg
    rw [List.get_eq_getElem, ← List.getD_eq_getElem _ [] hi]
    exact hg
  refine ⟨?_, ?_, hget, ?_, ?_, ?_⟩
  · have hd := pollLoop_done_iff oracle fuel 0
    simpa using hd
  · intro hno
    exact pollLoop_len_no_run oracle fuel 0 (fun j hj => by
      have := hno j hj
      rwa [Nat.zero_add])
  · intro i hi err hfail
    rw [hget i hi, hfail]
    simp [pollStep, isRunning]
  · intro i hi ss hsucc hnr hurl
    rw [hget i hi, hsucc]
    have hnr' : isRunning (StatusResult.success ss) = false := by
      simp [isRunning, hnr]
    rw [hnr']
    simp [pollStep, hnr, hurl]
  · intro i hi ss hsucc hr
    have hrun : isRunning (oracle i) = true := by
      rw [hsucc]
      simp [isRunning, hr]
    have hstop := pollLoop_run_stop oracle fuel 0 i hi
      (by rw [Nat.zero_add]; exact hrun)
    refine ⟨hstop.1, hstop.2, ?_⟩
    rw [hget i hi, hsucc]
    simp [pollStep, isRunning, hr]



/-- Witness for C9: a failure, a needs-auth poll, then `Running` exits the
loop; an always-failing oracle uses every iteration of its window. -/
theorem c9_poll_loop_witness :
    (pollLoop pollOracleEx 0 3).2 = true ∧
    ((pollLoop pollOracleFail 0 4).1.length = 4 ∧
      (pollLoop pollOracleFail 0 4).2 = false) ∧
    PollEvent.errStatus (str "boom") ∈
      (pollLoop pollOracleEx 0 3).1.get ⟨0, by decide⟩ :=
  ⟨(c9_poll_loop pollOracleEx 3).1.mpr ⟨2, by omega, by decide⟩,
   (c9_poll_loop pollOracleFail 4).2.1 (by decide),
   (c9_poll_loop pollOracleEx 3).2.2.2.1 0 (by decide) (str "boom") rfl⟩



/-- Witness for the amended C4 at a one-peer list. -/
theorem c4_marshal_shape_witness :
    (findTailmonEndpoints [peerHost1] = [] ∧ marshalEndpoints [peerHost1] = Json.null) ∨
    (∃ es, ¬ es = [] ∧ marshalEndpoints [peerHost1] = Json.jarr es ∧
      es.all endpointShaped = true) :=
  c4_marshal_shape [peerHost1]

/-- Witness for C6 at the specification's worked example. -/
theorem c6_sorted_stable_witness :
    (findTailmonEndpoints [peerHost2, peerHost1, peerOther]).Perm
      (rawEndpoints [peerHost2, peerHost1, peerOther]) ∧
    (findTailmonEndpoints [peerHost2, peerHost1, peerOther]).filter
        (fun e => e.ip == { is4 := true, val := 1684996097, render := str "100.64.0.1" }) =
      (rawEndpoints [peerHost2, peerHost1, peerOther]).filter
        (fun e => e.ip == { is4 := true, val := 1684996097, render := str "100.64.0.1" }) :=
  ⟨(c6_sorted_stable [peerHost2, peerHost1, peerOther]).1,
   (c6_sorted_stable [peerHost2, peerHost1, peerOther]).2.2 _⟩

end Tailmon
